import Mathlib

/-!
Verification development for the CSV-to-SQL-Server uploader
(`main_upload_data.py`).

The script's core pipeline is embedded shallowly:

* a pandas `DataFrame` read with `dtype=str, keep_default_na=False,
  na_filter=False` is a list of named columns of raw strings;
* after coercion a column holds tagged cells (`Cell`): raw text, integers
  (pandas `Int64`), rationals (floats that the script produces are decimal
  fractions, represented exactly by `Rat`), the float missing marker `NaN`
  (`Cell.nullNum`), datetimes, and the datetime missing marker `NaT`
  (`Cell.nullDate`);
* `pd.to_numeric(errors='coerce')` is modelled by an executable decimal
  parser `to_numeric`; `pd.to_datetime(errors='coerce')` is kept abstract:
  the theorems take the permissive parser as a function argument
  `pd_ : String → Option DateTime`;
* the surrounding `upload_data` control flow (connection, schema fetch,
  halting, the transactional write, and the `try/except` ladder) is a
  function from an environment of external outcomes (`RunEnv`) to a
  `RunResult` recording logs, the committed rows and whether any
  exception escaped.

String primitives are re-implemented structurally on `List Char` so that
every definition evaluates inside the kernel (`decide`/`rfl`).
-/

namespace CSVUpload

/-! ## String utilities (kernel-computable models of the Python/pandas string ops) -/

/-- Whitespace test used by `str.strip()` / numeric parsing (the common ASCII cases). -/
def isWS (c : Char) : Bool := c == ' ' || c == '\t' || c == '\n' || c == '\r'

/-- Model of Python `str.strip()`: drop whitespace from both ends. -/
def trimL (l : List Char) : List Char :=
  ((l.dropWhile isWS).reverse.dropWhile isWS).reverse

/-- Model of Python `str.strip()` on `String`. -/
def strTrim (s : String) : String := String.mk (trimL s.toList)

/-- Does the list start with the given pattern? -/
def startsWithL : List Char → List Char → Bool
  | _, [] => true
  | [], _ :: _ => false
  | c :: cs, p :: ps => c == p && startsWithL cs ps

/-- Does the string `s` end with `pat`?  (Python `str.endswith`.) -/
def strEndsWith (s pat : String) : Bool :=
  startsWithL s.toList.reverse pat.toList.reverse

/-- Is `pat` a contiguous substring of `cs`?  (Python `pat in s`.) -/
def hasSubL (pat : List Char) : List Char → Bool
  | [] => startsWithL [] pat
  | c :: rest => startsWithL (c :: rest) pat || hasSubL pat rest

/-- Python `pat in dtype` (substring containment). -/
def containsSub (s pat : String) : Bool := hasSubL pat.toList s.toList

/-- Remove the leftmost occurrences of `pat` (non-overlapping, left to right).
The fuel argument bounds the recursion; it is called with `length + 1`. -/
def removeOccs (pat : List Char) : Nat → List Char → List Char
  | 0, cs => cs
  | _ + 1, [] => []
  | fuel + 1, c :: cs =>
    if startsWithL (c :: cs) pat && !pat.isEmpty then
      removeOccs pat fuel ((c :: cs).drop pat.length)
    else
      c :: removeOccs pat fuel cs

/-- Model of Python `s.replace(pat, '')`: delete every occurrence of `pat`. -/
def removeSub (s pat : String) : String :=
  String.mk (removeOccs pat.toList (s.toList.length + 1) s.toList)

/-- Model of `.str.replace('$', '').str.replace(',', '')`: since both patterns
are single characters, deleting every occurrence is a character filter. -/
def stripDollarComma (s : String) : String :=
  String.mk (s.toList.filter (fun ch => !(ch == '$' || ch == ',')))

/-- Modelled from the spec's words for comparison with the code (refinement
check for the decimal rule): strip only a LEADING currency symbol `$`, plus
the thousands-separator `,` characters. -/
def specStripLeadingDollarComma (s : String) : String :=
  let s1 := if startsWithL s.toList ['$'] then String.mk (s.toList.drop 1) else s
  String.mk (s1.toList.filter (fun ch => !(ch == ',')))

/-! ## Decimal parsing: a model of `pd.to_numeric(errors='coerce')` -/

/-- Digit run to a natural number. -/
def digitsToNat (l : List Char) : Nat :=
  l.foldl (fun a c => a * 10 + (c.toNat - '0'.toNat)) 0

/-- Split at the first `'.'` (integer part, fractional part if a dot occurs). -/
def splitDot : List Char → List Char × Option (List Char)
  | [] => ([], none)
  | c :: cs =>
    if c == '.' then ([], some cs)
    else
      let (a, b) := splitDot cs
      (c :: a, b)

/-- Split at the first `'e'`/`'E'` (mantissa, exponent part if one occurs). -/
def splitExpChar : List Char → List Char × Option (List Char)
  | [] => ([], none)
  | c :: cs =>
    if c == 'e' || c == 'E' then ([], some cs)
    else
      let (a, b) := splitExpChar cs
      (c :: a, b)

/-- Read an optional leading sign. -/
def readSign : List Char → Int × List Char
  | '+' :: r => (1, r)
  | '-' :: r => (-1, r)
  | r => (1, r)

/-- Executable model of `pd.to_numeric(·, errors='coerce')` on one raw string:
optional sign, decimal digits with at most one point, optional integer
exponent; surrounding whitespace ignored; `none` models the coerced `NaN`.
The value is built with `mkRat` only, so it reduces in the kernel. -/
def to_numeric (s : String) : Option Rat :=
  let cs := trimL s.toList
  let (sg, cs1) := readSign cs
  let (mant, ex?) := splitExpChar cs1
  let (ip, fp?) := splitDot mant
  let fp := fp?.getD []
  if ip.all Char.isDigit && fp.all Char.isDigit && (!ip.isEmpty || !fp.isEmpty) then
    let m : Nat := digitsToNat (ip ++ fp)
    match ex? with
    | none => some (mkRat (sg * m) ((10 : Nat) ^ fp.length))
    | some ecs =>
      let (esg, eds) := readSign ecs
      if !eds.isEmpty && eds.all Char.isDigit then
        let e := digitsToNat eds
        if esg == 1 then some (mkRat (sg * m * (10 : Int) ^ e) ((10 : Nat) ^ fp.length))
        else some (mkRat (sg * m) ((10 : Nat) ^ (fp.length + e)))
      else none
  else none

/-! ## Cells, columns, tables -/

/-- A wall-clock timestamp as pandas renders one (year-month-day h:m:s). -/
structure DateTime where
  year : Nat
  month : Nat
  day : Nat
  hour : Nat
  minute : Nat
  second : Nat
deriving DecidableEq, Repr

/-- The fixed default `pd.Timestamp('1900-01-01 00:00:00')` filled into
`_Parsed` columns. -/
def sentinel : DateTime := ⟨1900, 1, 1, 0, 0, 0⟩

/-- One cell of the frame: raw text, pandas `Int64`, a parsed decimal,
the float missing marker `NaN`, a datetime, or the datetime marker `NaT`. -/
inductive Cell where
  | str (s : String)
  | int (n : Int)
  | num (q : Rat)
  | nullNum
  | date (d : DateTime)
  | nullDate
deriving DecidableEq, Repr

/-- Is the cell raw text?  (A pandas column of such cells has `object` dtype.) -/
def Cell.isStr : Cell → Bool
  | .str _ => true
  | _ => false

abbrev Col := List Cell

/-- A `DataFrame`: named columns in order.  (Column labels of a frame built
by this script are unique; theorems assume `Nodup` where it matters.) -/
abbrev Table := List (String × Col)

/-- Column labels. -/
def colNames (t : Table) : List String := t.map Prod.fst

/-- First entry of an association list with the given label (labels are
compared exactly and case-sensitively, as the script does). -/
def lookupBy {α : Type} : List (String × α) → String → Option (String × α)
  | [], _ => none
  | p :: l, n => if p.1 = n then some p else lookupBy l n

/-- `df[n]`: the column labelled `n`. -/
def getCol (t : Table) (n : String) : Option Col :=
  (lookupBy t n).map (fun p => p.2)

/-- `df[n] = c`: overwrite the column if the label exists, otherwise append
a new column on the right (pandas assignment semantics). -/
def setCol (t : Table) (n : String) (c : Col) : Table :=
  if n ∈ colNames t then t.map (fun p => if p.1 = n then (p.1, c) else p)
  else t ++ [(n, c)]

/-- Look a raw CSV column up by name (`source_col in df.columns` / `df[source_col]`). -/
def rawCol (raw : List (String × List String)) (n : String) : Option (List String) :=
  (lookupBy raw n).map (fun p => p.2)

/-! ## Column reconciliation (lines 109-118 of `main_upload_data.py`) -/

/-- `discarded_columns`: CSV columns whose name is not a destination column. -/
def discardedCols (schema : List (String × String)) (raw : List (String × List String)) :
    List String :=
  (raw.map Prod.fst).filter (fun c => !((schema.map Prod.fst).contains c))

/-- `df_filtered = df[final_columns]`: keep the CSV columns that exist in the
schema, in CSV order, as raw-text cells. -/
def reconcile (schema : List (String × String)) (raw : List (String × List String)) : Table :=
  (raw.filter (fun p => (schema.map Prod.fst).contains p.1)).map
    (fun p => (p.1, p.2.map Cell.str))

/-! ## Textual blank normalization (lines 120-135) -/

def text_type_markers : List String :=
  ["char", "nchar", "varchar", "nvarchar", "text", "ntext", "xml", "uniqueidentifier"]

/-- `any(t in dtype for t in text_type_markers)`. -/
def isTextType (dtype : String) : Bool :=
  text_type_markers.any (fun t => containsSub dtype t)

/-- `.astype(str).str.strip().replace({'NULL': '', 'null': '', 'NaN': '', 'nan': ''})`:
strip surrounding whitespace, then a whole-cell placeholder becomes empty. -/
def normalizeTextCell : Cell → Cell
  | .str s =>
    let s := strTrim s
    if s == "NULL" || s == "null" || s == "NaN" || s == "nan" then .str "" else .str s
  | c => c

/-- One iteration of a `for col, dtype in table_schema.items()` pass: when the
column is present (`if col in df_filtered.columns`), `f` may replace it. -/
def applyStep (f : String × String → Col → Option Col) (acc : Table)
    (p : String × String) : Table :=
  match getCol acc p.1 with
  | some c =>
    match f p c with
    | some c2 => setCol acc p.1 c2
    | none => acc
  | none => acc

/-- Shared shape of the two `for col, dtype in table_schema.items()` passes. -/
def applySchema (f : String × String → Col → Option Col)
    (schema : List (String × String)) (t : Table) : Table :=
  schema.foldl (applyStep f) t

/-- The blank-normalization pass over every text-typed schema column. -/
def normalizeText (schema : List (String × String)) (t : Table) : Table :=
  applySchema (fun p c => if isTextType p.2 then some (c.map normalizeTextCell) else none)
    schema t

/-! ## Derived `_Parsed` columns (lines 137-146) -/

/-- One derived cell: `pd.to_datetime(raw.str[:-4], errors='coerce')` followed by
`.fillna(pd.Timestamp('1900-01-01 00:00:00'))`.  `raw.str[:-4]` is the raw text
with its last four characters removed (empty when the text is shorter). -/
def deriveCell (pd_ : String → Option DateTime) (raw : String) : Cell :=
  match pd_ (String.mk (raw.toList.take (raw.toList.length - 4))) with
  | some d => .date d
  | none => .date sentinel

/-- `db_col.replace('_Parsed', '')`: the source column a `_Parsed` column is
derived from (every occurrence of the substring is removed). -/
def parsedBase (dbCol : String) : String := removeSub dbCol "_Parsed"

/-- One step of the derivation loop: the guard is
`if db_col.endswith('_Parsed')` and `if source_col in df.columns` — the check is
against the ORIGINAL CSV frame `df`, and the values are taken from it. -/
def deriveStep (pd_ : String → Option DateTime) (raw : List (String × List String))
    (acc : Table) (p : String × String) : Table :=
  if strEndsWith p.1 "_Parsed" then
    match rawCol raw (parsedBase p.1) with
    | some vals => setCol acc p.1 (vals.map (deriveCell pd_))
    | none => acc
  else acc

/-- The full `for db_col in db_columns` derivation loop. -/
def deriveParsed (pd_ : String → Option DateTime) (schema : List (String × String))
    (raw : List (String × List String)) (t : Table) : Table :=
  schema.foldl (deriveStep pd_ raw) t

/-! ## Type coercion (lines 148-169) -/

/-- `'int' in dtype or 'bigint' in dtype`. -/
def intLike (dtype : String) : Bool := containsSub dtype "int" || containsSub dtype "bigint"

/-- `any(t in dtype for t in ['float', 'decimal', 'numeric', 'money'])`. -/
def floatLike (dtype : String) : Bool :=
  ["float", "decimal", "numeric", "money"].any (fun t => containsSub dtype t)

/-- `'date' in dtype or 'time' in dtype`. -/
def dateLike (dtype : String) : Bool := containsSub dtype "date" || containsSub dtype "time"

/-- `.replace(['', 'NULL', 'null', 'NaN', 'nan'], '0')` on one cell (an exact
whole-cell match on text; other dtypes are untouched). -/
def intReplaceCell : Cell → Cell
  | .str s =>
    .str (if s == "" || s == "NULL" || s == "null" || s == "NaN" || s == "nan" then "0" else s)
  | c => c

/-- The value `pd.to_numeric(errors='coerce').fillna(0)` produces for one cell:
text parses (or becomes `NaN`, then `0`), numeric cells pass through.  `none`
marks the datetime cases, on which the library call does not return a numeric
column (the script never reaches them: `_Parsed` columns are datetime-typed);
a `none` makes the whole column conversion fail, caught by the per-column
`except` which leaves the column as it was. -/
def intCellVal? : Cell → Option Rat
  | .str s => some ((to_numeric s).getD (mkRat 0 1))
  | .int n => some (mkRat n 1)
  | .num q => some q
  | .nullNum => some (mkRat 0 1)
  | .date _ => none
  | .nullDate => none

/-- The integer a text cell ends up as when the integer conversion succeeds. -/
def intCellOut (x : Cell) : Int := ((intCellVal? (intReplaceCell x)).getD (mkRat 0 1)).num

/-- Smallest value of a signed 64-bit integer. -/
def int64Min : Int := -(2 ^ 63)

/-- Largest value of a signed 64-bit integer. -/
def int64Max : Int := 2 ^ 63 - 1

/-- Can the value be stored losslessly in a signed 64-bit integer?  This is
the safe-cast test of `.astype('Int64')`: the cast raises "cannot safely
cast" when a value is non-integral OR falls outside the 64-bit range. -/
def isInt64 (q : Rat) : Bool :=
  q.den == 1 && decide (int64Min ≤ q.num) && decide (q.num ≤ int64Max)

/-- The integer branch (lines 153-155): the placeholder replacement is a
separate completed assignment; then `pd.to_numeric(errors='coerce').fillna(0)`
and `.astype('Int64')`.  The cast raises unless every value is an integer
representable in 64 bits, and the raise is caught by the per-column
`except`, so the column then keeps the post-replacement values. -/
def coerceIntCol (c : Col) : Col :=
  let r := c.map intReplaceCell
  if r.all (fun x => (intCellVal? x).isSome) then
    let vals := r.map (fun x => (intCellVal? x).getD (mkRat 0 1))
    if vals.all isInt64 then vals.map (fun q => Cell.int q.num) else r
  else r

/-- `$`/`,` removal applies to text cells (the column-level guard is the
`object` dtype check in the script). -/
def stripCell : Cell → Cell
  | .str s => .str (stripDollarComma s)
  | c => c

/-- `pd.to_numeric(errors='coerce')` on one cell of a float column: text
parses to a rational or the missing marker; numeric cells pass through;
`none` marks the datetime cases (column conversion fails, column kept). -/
def floatCellVal? : Cell → Option Cell
  | .str s => some (match to_numeric s with | some q => Cell.num q | none => Cell.nullNum)
  | .int n => some (.int n)
  | .num q => some (.num q)
  | .nullNum => some .nullNum
  | .date _ => none
  | .nullDate => none

/-- The float/decimal/numeric/money branch (lines 156-160): strip `$` and `,`
when the column is raw text, then numeric coercion; unparseable text becomes
the missing marker (never zero). -/
def coerceFloatCol (c : Col) : Col :=
  let s := if c.all Cell.isStr then c.map stripCell else c
  if s.all (fun x => (floatCellVal? x).isSome) then
    s.map (fun x => (floatCellVal? x).getD x)
  else s

/-- `pd.to_datetime(errors='coerce')` on one cell of a date/time column. -/
def dateCellVal? (pd_ : String → Option DateTime) : Cell → Option Cell
  | .str s => some (match pd_ s with | some d => Cell.date d | none => Cell.nullDate)
  | .date d => some (.date d)
  | .nullDate => some .nullDate
  | _ => none

/-- The date/time branch body (line 163). -/
def coerceDateCol (pd_ : String → Option DateTime) (c : Col) : Col :=
  if c.all (fun x => (dateCellVal? pd_ x).isSome) then
    c.map (fun x => (dateCellVal? pd_ x).getD x)
  else c

/-- Cells a float-typed column can hold after a successful numeric coercion. -/
def floatSettled : Cell → Bool
  | .str _ => false
  | .date _ => false
  | .nullDate => false
  | _ => true

/-- Cells a date-typed column can hold after `pd.to_datetime`. -/
def dateSettled : Cell → Bool
  | .date _ => true
  | .nullDate => true
  | _ => false

/-- The `if/elif` dispatch of the coercion loop for one column.  The final
`else` branch (`fillna('')` on `object` columns) is the identity here: the
frame is read with `na_filter=False`, so a text column holds no missing
values to fill. -/
def coerceCol (pd_ : String → Option DateTime) (name dtype : String) (c : Col) : Col :=
  if intLike dtype then coerceIntCol c
  else if floatLike dtype then coerceFloatCol c
  else if dateLike dtype then
    if strEndsWith name "_Parsed" then c else coerceDateCol pd_ c
  else c

/-- Did the per-column `try` of the coercion loop catch an exception for this
column?  (Integer branch: a non-integral or out-of-64-bit-range value makes
`astype('Int64')` raise; either numeric branch raises on a datetime column.) -/
def coerceColFails (pd_ : String → Option DateTime) (name dtype : String) (c : Col) : Bool :=
  if intLike dtype then
    let r := c.map intReplaceCell
    !(r.all (fun x => (intCellVal? x).isSome) &&
      (r.map (fun x => (intCellVal? x).getD (mkRat 0 1))).all isInt64)
  else if floatLike dtype then
    let s := if c.all Cell.isStr then c.map stripCell else c
    !(s.all (fun x => (floatCellVal? x).isSome))
  else if dateLike dtype then
    if strEndsWith name "_Parsed" then false
    else !(c.all (fun x => (dateCellVal? pd_ x).isSome))
  else false

/-- The full coercion loop (lines 148-169). -/
def coerceStage (pd_ : String → Option DateTime) (schema : List (String × String))
    (t : Table) : Table :=
  applySchema (fun p c => some (coerceCol pd_ p.1 p.2 c)) schema t

/-- The warnings the coercion loop logs, one per column whose conversion was
caught by its `except`.  (Column labels are unique in a run, so the column a
coercion step sees is the column as the derivation stage left it.) -/
def coerceFailCols (pd_ : String → Option DateTime) (schema : List (String × String))
    (t : Table) : List (String × String) :=
  schema.filter
    (fun p =>
      match getCol t p.1 with
      | some c => coerceColFails pd_ p.1 p.2 c
      | none => false)

/-- The whole in-memory pipeline of `upload_data` on a successfully read CSV:
reconcile, normalize text blanks, derive `_Parsed` columns, coerce types. -/
def processTable (pd_ : String → Option DateTime) (schema : List (String × String))
    (raw : List (String × List String)) : Table :=
  coerceStage pd_ schema (deriveParsed pd_ schema raw (normalizeText schema (reconcile schema raw)))

/-! ## The run model: logging, external outcomes, `upload_data` control flow -/

inductive LogLevel where
  | info
  | warning
  | error
deriving DecidableEq, Repr

/-- The logging calls of the script, one constructor per call site, carrying
the data interpolated into the message. -/
inductive LogEntry where
  | infoStart (filepath : String)
  | errorCreds
  | infoConnected
  | errorConnFailed
  | infoFetchSchema (sch tbl : String)
  | warnTableNotFound (sch tbl : String)
  | errorSchemaFetch (sch tbl : String)
  | errorHaltNoSchema (sch tbl : String)
  | infoReadCsv (filepath : String)
  | infoRowsRead (n : Nat)
  | warnDiscard (sch tbl : String) (cols : List String)
  | infoDerive (dbCol srcCol : String)
  | warnCoerce (col dtype : String)
  | infoUploading (n : Nat) (sch tbl : String)
  | infoUploadDone
  | errorUpload
  | errorRollbackNote
  | errorFileNotFound (filepath : String)
  | errorUnexpected
deriving DecidableEq, Repr

/-- The level each call site logs at. -/
def LogEntry.level : LogEntry → LogLevel
  | .infoStart _ => .info
  | .infoConnected => .info
  | .infoFetchSchema _ _ => .info
  | .infoReadCsv _ => .info
  | .infoRowsRead _ => .info
  | .infoDerive _ _ => .info
  | .infoUploading _ _ _ => .info
  | .infoUploadDone => .info
  | .warnTableNotFound _ _ => .warning
  | .warnDiscard _ _ _ => .warning
  | .warnCoerce _ _ => .warning
  | _ => .error

/-- The Python exception classes the script can raise internally.  All of
them are subclasses of `Exception`. -/
inductive PyExc where
  | fileNotFound
  | sqlAlchemyError
  | valueError
deriving DecidableEq, Repr

/-- Outcomes of the run's external collaborators: configured schema name,
whether credentials are present, whether the connection succeeds, the
`INFORMATION_SCHEMA` rows (`none` = the query raised), the CSV contents
(`none` = `FileNotFoundError`), and whether the bulk insert succeeds. -/
structure RunEnv where
  dbSchemaName : String
  credsPresent : Bool
  connectOk : Bool
  schemaQuery : Option (List (String × String))
  csvFile : Option (List (String × List String))
  uploadOk : Bool

/-- `get_db_engine`: missing credentials raise `ValueError`; a failed
connection test logs the failure block and re-raises the `SQLAlchemyError`. -/
def get_db_engine (env : RunEnv) : Except PyExc Unit × List LogEntry :=
  if !env.credsPresent then (.error .valueError, [.errorCreds])
  else if env.connectOk then (.ok (), [.infoConnected])
  else (.error .sqlAlchemyError, [.errorConnFailed])

/-- `get_table_schema` (lines 64-83): on a query error it logs and returns
`None`; an empty result logs a warning and is returned as the empty mapping
(the distinct "not found" outcome); otherwise the column-to-dtype rows. -/
def get_table_schema (rows? : Option (List (String × String))) (tbl sch : String) :
    Option (List (String × String)) × List LogEntry :=
  match rows? with
  | none => (none, [.infoFetchSchema sch tbl, .errorSchemaFetch sch tbl])
  | some rows =>
    if rows.isEmpty then (some rows, [.infoFetchSchema sch tbl, .warnTableNotFound sch tbl])
    else (some rows, [.infoFetchSchema sch tbl])

/-- `len(df)`: the columns of a CSV frame all have the same length. -/
def numRows (raw : List (String × List String)) : Nat :=
  (raw.head?.map (fun p => p.2.length)).getD 0

/-- The single discard warning (line 115), emitted only when something was
discarded. -/
def discardLogs (sch tbl : String) (discarded : List String) : List LogEntry :=
  if discarded.isEmpty then [] else [.warnDiscard sch tbl discarded]

/-- The `INFO` line per derived column (line 142). -/
def deriveLogs (schema : List (String × String)) (raw : List (String × List String)) :
    List LogEntry :=
  schema.filterMap
    (fun p =>
      if strEndsWith p.1 "_Parsed" && (rawCol raw (parsedBase p.1)).isSome then
        some (.infoDerive p.1 (parsedBase p.1))
      else none)

/-- The warnings of the coercion loop. -/
def coerceLogs (pd_ : String → Option DateTime) (schema : List (String × String))
    (t : Table) : List LogEntry :=
  (coerceFailCols pd_ schema t).map (fun p => .warnCoerce p.1 p.2)

/-- The outcome of one `upload_data` run: everything logged, the rows durably
committed (`some t` = every row of `t`, `none` = nothing — `engine.begin()`
commits on success and rolls back when the body raises), how many bulk-insert
attempts were made, whether `pd.read_csv` was reached, and the exception that
escaped `upload_data`, if any. -/
structure RunResult where
  logs : List LogEntry
  committed : Option Table
  uploadAttempts : Nat
  fileRead : Bool
  uncaught : Option PyExc
deriving Repr

/-- The body of the outer `try` of `upload_data` (lines 90-180): either a
normal completion or an exception carried out with the logs written so far. -/
def upload_data_try (pd_ : String → Option DateTime) (env : RunEnv)
    (filepath tbl : String) :
    Except (PyExc × List LogEntry × Bool) (List LogEntry × Option Table × Nat × Bool) :=
  match get_db_engine env with
  | (.error e, lg) => .error (e, lg, false)
  | (.ok _, lg0) =>
    match get_table_schema env.schemaQuery tbl env.dbSchemaName with
    | (none, lg1) =>
      .ok (lg0 ++ lg1 ++ [.errorHaltNoSchema env.dbSchemaName tbl], none, 0, false)
    | (some schema, lg1) =>
      if schema.isEmpty then
        -- `if not table_schema:` is also taken for the empty mapping
        .ok (lg0 ++ lg1 ++ [.errorHaltNoSchema env.dbSchemaName tbl], none, 0, false)
      else
        match env.csvFile with
        | none => .error (.fileNotFound, lg0 ++ lg1 ++ [.infoReadCsv filepath], true)
        | some raw =>
          let t0 := reconcile schema raw
          let t2 := deriveParsed pd_ schema raw (normalizeText schema t0)
          let final := coerceStage pd_ schema t2
          let lgs := lg0 ++ lg1 ++
            [.infoReadCsv filepath, .infoRowsRead (numRows raw)] ++
            discardLogs env.dbSchemaName tbl (discardedCols schema raw) ++
            deriveLogs schema raw ++
            coerceLogs pd_ schema t2 ++
            [.infoUploading (numRows raw) env.dbSchemaName tbl]
          if env.uploadOk then
            .ok (lgs ++ [.infoUploadDone], some final, 1, true)
          else
            -- `except SQLAlchemyError`: the transaction context rolled back;
            -- the handler logs and falls through (no retry)
            .ok (lgs ++ [.errorUpload, .errorRollbackNote], none, 1, true)

/-- `upload_data` (lines 85-185): the body wrapped in
`except FileNotFoundError` / `except Exception`, each of which logs and
returns normally — every `PyExc` is an `Exception`, so nothing escapes. -/
def upload_data (pd_ : String → Option DateTime) (env : RunEnv)
    (filepath tbl : String) : RunResult :=
  let start := [LogEntry.infoStart filepath]
  match upload_data_try pd_ env filepath tbl with
  | .ok (lgs, comm, att, fr) => ⟨start ++ lgs, comm, att, fr, none⟩
  | .error (.fileNotFound, lgs, fr) =>
    ⟨start ++ lgs ++ [.errorFileNotFound filepath], none, 0, fr, none⟩
  | .error (_, lgs, fr) => ⟨start ++ lgs ++ [.errorUnexpected], none, 0, fr, none⟩

/-! ## Concrete instances used by the witnesses and counterexamples -/

/-- A permissive parser that recognizes nothing; enough for runs without
date columns. -/
def pdNone : String → Option DateTime := fun _ => none

/-- A tiny concrete permissive parser recognizing two ISO dates. -/
def pdW : String → Option DateTime := fun s =>
  if s == "2024-01-01" then some ⟨2024, 1, 1, 0, 0, 0⟩
  else if s == "2024-06-01" then some ⟨2024, 6, 1, 0, 0, 0⟩
  else none

/-- A fully successful environment around a one-column integer table. -/
def envW : RunEnv :=
  { dbSchemaName := "tcn", credsPresent := true, connectOk := true,
    schemaQuery := some [("ID", "int")], csvFile := some [("ID", ["7", ""])],
    uploadOk := true }

/-! ## General lemmas about columns and tables -/

theorem map_eq_self_of {α : Type} (l : List α) (f : α → α) (h : ∀ x ∈ l, f x = x) :
    l.map f = l := by
  induction l with
  | nil => rfl
  | cons a t ih =>
    simp only [List.map_cons, h a (List.mem_cons_self a t)]
    exact congrArg _ (ih fun x hx => h x (List.mem_cons_of_mem a hx))

theorem getCol_nil (n : String) : getCol [] n = none := rfl

theorem getCol_cons (x : String × Col) (t : Table) (n : String) :
    getCol (x :: t) n = if x.1 = n then some x.2 else getCol t n := by
  by_cases hb : x.1 = n <;> simp [getCol, lookupBy, hb]

theorem getCol_eq_none_iff (t : Table) (n : String) :
    getCol t n = none ↔ n ∉ colNames t := by
  induction t with
  | nil => simp [getCol_nil, colNames]
  | cons x r ih =>
    rw [getCol_cons]
    by_cases hb : x.1 = n
    · simp [hb, colNames]
    · simp only [hb, ite_false]
      simp only [colNames, List.map_cons, List.mem_cons] at ih ⊢
      constructor
      · intro h
        exact fun hc => hc.elim (fun he => hb he.symm) (ih.mp h)
      · intro h
        exact ih.mpr fun hc => h (Or.inr hc)

theorem getCol_map_update (t : Table) (n : String) (c : Col)
    (hm : n ∈ colNames t) :
    getCol (t.map (fun p => if p.1 = n then (p.1, c) else p)) n = some c := by
  induction t with
  | nil => simp [colNames] at hm
  | cons a r ih =>
    by_cases hb : a.1 = n
    · simp [getCol_cons, hb]
    · simp only [colNames, List.map_cons, List.mem_cons] at hm
      rcases hm with hm | hm
      · exact absurd hm.symm hb
      · simp only [List.map_cons, hb, ite_false, getCol_cons]
        exact ih hm

theorem getCol_append_single (t : Table) (n : String) (c : Col)
    (hm : n ∉ colNames t) :
    getCol (t ++ [(n, c)]) n = some c := by
  induction t with
  | nil => simp [getCol_cons]
  | cons a r ih =>
    simp only [colNames, List.map_cons, List.mem_cons, not_or] at hm
    rw [List.cons_append, getCol_cons, if_neg (fun he => hm.1 he.symm)]
    exact ih hm.2

theorem getCol_setCol_self (t : Table) (n : String) (c : Col) :
    getCol (setCol t n c) n = some c := by
  unfold setCol
  by_cases hm : n ∈ colNames t
  · rw [if_pos hm]
    exact getCol_map_update t n c hm
  · rw [if_neg hm]
    exact getCol_append_single t n c hm

theorem getCol_map_update_ne (t : Table) (n m : String) (c : Col) (h : ¬ n = m) :
    getCol (t.map (fun p => if p.1 = n then (p.1, c) else p)) m = getCol t m := by
  induction t with
  | nil => rfl
  | cons a r ih =>
    by_cases hb : a.1 = n
    · have hne : ¬ a.1 = m := fun he => h (hb ▸ he)
      rw [List.map_cons, if_pos hb, getCol_cons, getCol_cons]
      exact if_neg hne ▸ if_neg hne ▸ ih
    · rw [List.map_cons, if_neg hb, getCol_cons, getCol_cons]
      by_cases hc : a.1 = m
      · simp [hc]
      · rw [if_neg hc, if_neg hc]
        exact ih

theorem getCol_append_single_ne (t : Table) (n m : String) (c : Col) (h : ¬ n = m) :
    getCol (t ++ [(n, c)]) m = getCol t m := by
  induction t with
  | nil => simp [getCol_cons, h]
  | cons a r ih =>
    rw [List.cons_append, getCol_cons, getCol_cons]
    by_cases hc : a.1 = m
    · simp [hc]
    · rw [if_neg hc, if_neg hc]
      exact ih

theorem getCol_setCol_ne (t : Table) (n m : String) (c : Col) (h : ¬ n = m) :
    getCol (setCol t n c) m = getCol t m := by
  unfold setCol
  by_cases hm : n ∈ colNames t
  · rw [if_pos hm]
    exact getCol_map_update_ne t n m c h
  · rw [if_neg hm]
    exact getCol_append_single_ne t n m c h

theorem colNames_setCol_of_mem (t : Table) (n : String) (c : Col)
    (h : n ∈ colNames t) :
    colNames (setCol t n c) = colNames t := by
  unfold setCol
  rw [if_pos h]
  simp only [colNames, List.map_map]
  apply List.map_congr_left
  intro p _
  by_cases hb : p.1 = n <;> simp [hb]

theorem mem_colNames_setCol (t : Table) (n m : String) (c : Col)
    (h : m ∈ colNames (setCol t n c)) : m ∈ colNames t ∨ m = n := by
  unfold setCol at h
  by_cases ha : n ∈ colNames t
  · rw [if_pos ha] at h
    simp only [colNames, List.map_map, List.mem_map] at h
    obtain ⟨p, hp, hpe⟩ := h
    by_cases hb : p.1 = n
    · right
      simp only [Function.comp_apply, hb, if_true] at hpe
      simp [← hpe]
    · left
      simp only [Function.comp_apply, hb, if_false] at hpe
      exact List.mem_map.mpr ⟨p, hp, hpe⟩
  · rw [if_neg ha] at h
    simp only [colNames, List.map_append, List.mem_append] at h
    rcases h with h | h
    · exact Or.inl h
    · simp at h
      exact Or.inr h

theorem mem_colNames_of_getCol (t : Table) (n : String) (c : Col)
    (h : getCol t n = some c) : n ∈ colNames t := by
  by_contra hc
  rw [(getCol_eq_none_iff t n).mpr hc] at h
  exact Option.noConfusion h

/-! ## Characterizations of the schema-driven passes -/

theorem getCol_applyStep_ne (f : String × String → Col → Option Col) (acc : Table)
    (p : String × String) (n : String) (h : ¬ p.1 = n) :
    getCol (applyStep f acc p) n = getCol acc n := by
  cases hg : getCol acc p.1 with
  | none => simp [applyStep, hg]
  | some c =>
    cases hf : f p c with
    | none => simp [applyStep, hg, hf]
    | some c2 =>
      simp only [applyStep, hg, hf]
      exact getCol_setCol_ne acc p.1 n c2 h

theorem getCol_applyStep_self (f : String × String → Col → Option Col) (acc : Table)
    (p : String × String) :
    getCol (applyStep f acc p) p.1 = (getCol acc p.1).map (fun c => (f p c).getD c) := by
  cases hg : getCol acc p.1 with
  | none => simp [applyStep, hg]
  | some c =>
    cases hf : f p c with
    | none => simp [applyStep, hg, hf]
    | some c2 =>
      simp only [applyStep, hg, hf, Option.map_some]
      rw [getCol_setCol_self]
      simp [hf]

theorem colNames_applyStep (f : String × String → Col → Option Col) (acc : Table)
    (p : String × String) : colNames (applyStep f acc p) = colNames acc := by
  cases hg : getCol acc p.1 with
  | none => simp [applyStep, hg]
  | some c =>
    cases hf : f p c with
    | none => simp [applyStep, hg, hf]
    | some c2 =>
      simp only [applyStep, hg, hf]
      exact colNames_setCol_of_mem acc p.1 c2 (mem_colNames_of_getCol acc p.1 c hg)

theorem applySchema_cons (f : String × String → Col → Option Col)
    (p : String × String) (s : List (String × String)) (t : Table) :
    applySchema f (p :: s) t = applySchema f s (applyStep f t p) := rfl

theorem colNames_applySchema (f : String × String → Col → Option Col)
    (schema : List (String × String)) (t : Table) :
    colNames (applySchema f schema t) = colNames t := by
  induction schema generalizing t with
  | nil => rfl
  | cons p s ih =>
    rw [applySchema_cons]
    exact (ih (applyStep f t p)).trans (colNames_applyStep f t p)

theorem getCol_applySchema_not_mem (f : String × String → Col → Option Col)
    (schema : List (String × String)) (t : Table) (n : String)
    (h : n ∉ schema.map Prod.fst) :
    getCol (applySchema f schema t) n = getCol t n := by
  induction schema generalizing t with
  | nil => rfl
  | cons p s ih =>
    simp only [List.map_cons, List.mem_cons, not_or] at h
    rw [applySchema_cons]
    exact (ih (applyStep f t p) h.2).trans
      (getCol_applyStep_ne f t p n (fun he => h.1 he.symm))

theorem getCol_applySchema_of_mem (f : String × String → Col → Option Col)
    (schema : List (String × String)) (t : Table) (q : String × String)
    (hnd : (schema.map Prod.fst).Nodup) (hm : q ∈ schema) :
    getCol (applySchema f schema t) q.1 =
      (getCol t q.1).map (fun c => (f q c).getD c) := by
  induction schema generalizing t with
  | nil => exact absurd hm (List.not_mem_nil q)
  | cons p s ih =>
    simp only [List.map_cons, List.nodup_cons] at hnd
    rw [applySchema_cons]
    rcases List.mem_cons.mp hm with he | hs
    · subst he
      have hq : q.1 ∉ s.map Prod.fst := hnd.1
      calc getCol (applySchema f s (applyStep f t q)) q.1
          = getCol (applyStep f t q) q.1 := getCol_applySchema_not_mem f s _ q.1 hq
        _ = (getCol t q.1).map (fun c => (f q c).getD c) := getCol_applyStep_self f t q
    · have hne : ¬ p.1 = q.1 := fun he =>
        hnd.1 (he ▸ List.mem_map.mpr ⟨q, hs, rfl⟩)
      rw [ih (applyStep f t p) hnd.2 hs, getCol_applyStep_ne f t p q.1 hne]

theorem getCol_deriveStep_ne (pd_ : String → Option DateTime)
    (raw : List (String × List String)) (acc : Table) (p : String × String) (n : String)
    (h : ¬ p.1 = n) : getCol (deriveStep pd_ raw acc p) n = getCol acc n := by
  by_cases hg : strEndsWith p.1 "_Parsed" = true
  · cases hr : rawCol raw (parsedBase p.1) with
    | none => simp [deriveStep, hg, hr]
    | some vals =>
      simp only [deriveStep, hg, if_true, hr]
      exact getCol_setCol_ne acc p.1 n _ h
  · simp [deriveStep, hg]

theorem getCol_deriveStep_self (pd_ : String → Option DateTime)
    (raw : List (String × List String)) (acc : Table) (p : String × String) :
    getCol (deriveStep pd_ raw acc p) p.1 =
      if strEndsWith p.1 "_Parsed" = true then
        match rawCol raw (parsedBase p.1) with
        | some vals => some (vals.map (deriveCell pd_))
        | none => getCol acc p.1
      else getCol acc p.1 := by
  by_cases hg : strEndsWith p.1 "_Parsed" = true
  · cases hr : rawCol raw (parsedBase p.1) with
    | none => simp [deriveStep, hg, hr]
    | some vals =>
      simp only [deriveStep, hg, if_true, hr]
      exact getCol_setCol_self acc p.1 _
  · simp [deriveStep, hg]

theorem mem_colNames_deriveStep (pd_ : String → Option DateTime)
    (raw : List (String × List String)) (acc : Table) (p : String × String) (m : String)
    (h : m ∈ colNames (deriveStep pd_ raw acc p)) :
    m ∈ colNames acc ∨
      (m = p.1 ∧ strEndsWith p.1 "_Parsed" = true ∧
        (rawCol raw (parsedBase p.1)).isSome = true) := by
  by_cases hg : strEndsWith p.1 "_Parsed" = true
  · cases hr : rawCol raw (parsedBase p.1) with
    | none =>
      simp only [deriveStep, hg, if_true, hr] at h
      exact Or.inl h
    | some vals =>
      simp only [deriveStep, hg, if_true, hr] at h
      rcases mem_colNames_setCol acc p.1 m _ h with h2 | h2
      · exact Or.inl h2
      · exact Or.inr ⟨h2, hg, rfl⟩
  · simp only [deriveStep, hg, if_false, Bool.false_eq_true] at h
    exact Or.inl h

theorem deriveParsed_cons (pd_ : String → Option DateTime) (p : String × String)
    (s : List (String × String)) (raw : List (String × List String)) (t : Table) :
    deriveParsed pd_ (p :: s) raw t = deriveParsed pd_ s raw (deriveStep pd_ raw t p) := rfl

theorem getCol_deriveParsed_not_mem (pd_ : String → Option DateTime)
    (schema : List (String × String)) (raw : List (String × List String)) (t : Table)
    (n : String) (h : n ∉ schema.map Prod.fst) :
    getCol (deriveParsed pd_ schema raw t) n = getCol t n := by
  induction schema generalizing t with
  | nil => rfl
  | cons p s ih =>
    simp only [List.map_cons, List.mem_cons, not_or] at h
    rw [deriveParsed_cons]
    exact (ih (deriveStep pd_ raw t p) h.2).trans
      (getCol_deriveStep_ne pd_ raw t p n (fun he => h.1 he.symm))

theorem getCol_deriveParsed_of_mem (pd_ : String → Option DateTime)
    (schema : List (String × String)) (raw : List (String × List String)) (t : Table)
    (q : String × String) (hnd : (schema.map Prod.fst).Nodup) (hm : q ∈ schema) :
    getCol (deriveParsed pd_ schema raw t) q.1 =
      if strEndsWith q.1 "_Parsed" = true then
        match rawCol raw (parsedBase q.1) with
        | some vals => some (vals.map (deriveCell pd_))
        | none => getCol t q.1
      else getCol t q.1 := by
  induction schema generalizing t with
  | nil => exact absurd hm (List.not_mem_nil q)
  | cons p s ih =>
    simp only [List.map_cons, List.nodup_cons] at hnd
    rw [deriveParsed_cons]
    rcases List.mem_cons.mp hm with he | hs
    · subst he
      have hq : q.1 ∉ s.map Prod.fst := hnd.1
      rw [getCol_deriveParsed_not_mem pd_ s raw _ q.1 hq]
      exact getCol_deriveStep_self pd_ raw t q
    · have hne : ¬ p.1 = q.1 := fun he =>
        hnd.1 (he ▸ List.mem_map.mpr ⟨q, hs, rfl⟩)
      rw [ih (deriveStep pd_ raw t p) hnd.2 hs, getCol_deriveStep_ne pd_ raw t p q.1 hne]

theorem mem_colNames_deriveParsed (pd_ : String → Option DateTime)
    (schema : List (String × String)) (raw : List (String × List String)) (t : Table)
    (m : String) (h : m ∈ colNames (deriveParsed pd_ schema raw t)) :
    m ∈ colNames t ∨
      ∃ q ∈ schema, q.1 = m ∧ strEndsWith q.1 "_Parsed" = true ∧
        (rawCol raw (parsedBase q.1)).isSome = true := by
  induction schema generalizing t with
  | nil => exact Or.inl h
  | cons p s ih =>
    rw [deriveParsed_cons] at h
    rcases ih (deriveStep pd_ raw t p) h with h2 | h2
    · rcases mem_colNames_deriveStep pd_ raw t p m h2 with h3 | h3
      · exact Or.inl h3
      · exact Or.inr ⟨p, List.mem_cons_self p s, h3.1.symm, h3.2⟩
    · obtain ⟨q, hq, hrest⟩ := h2
      exact Or.inr ⟨q, List.mem_cons_of_mem p hq, hrest⟩

/-! ## Idempotence of the per-column coercions -/

theorem mkRat_one_den (n : Int) : (mkRat n 1).den = 1 := by
  simp [mkRat, Rat.normalize]

theorem mkRat_one_num (n : Int) : (mkRat n 1).num = n := by
  simp [mkRat, Rat.normalize]

theorem intReplaceCell_idem (x : Cell) :
    intReplaceCell (intReplaceCell x) = intReplaceCell x := by
  cases x with
  | str s =>
    by_cases h : (s == "" || s == "NULL" || s == "null" || s == "NaN" || s == "nan") = true
    · simp only [intReplaceCell, h, if_true]
      rfl
    · simp only [intReplaceCell, h, if_false, Bool.false_eq_true]
  | int n => rfl
  | num q => rfl
  | nullNum => rfl
  | date d => rfl
  | nullDate => rfl

theorem coerceIntCol_out (c : Col)
    (h1 : (c.map intReplaceCell).all (fun x => (intCellVal? x).isSome) = true)
    (h2 : ((c.map intReplaceCell).map
        (fun x => (intCellVal? x).getD (mkRat 0 1))).all isInt64 = true) :
    coerceIntCol c = c.map (fun x => Cell.int (intCellOut x)) := by
  simp only [coerceIntCol, h1, if_true, h2]
  rw [List.map_map, List.map_map]
  apply List.map_congr_left
  intro x _
  rfl

theorem coerceIntCol_of_int (o : Col)
    (h : ∀ x ∈ o, ∃ k, x = Cell.int k ∧ int64Min ≤ k ∧ k ≤ int64Max) :
    coerceIntCol o = o := by
  have hrep : o.map intReplaceCell = o :=
    map_eq_self_of _ _ (fun x hx => by obtain ⟨k, hk, _, _⟩ := h x hx; rw [hk]; rfl)
  have hall : (o.map intReplaceCell).all (fun x => (intCellVal? x).isSome) = true := by
    rw [hrep]
    exact List.all_eq_true.mpr
      (fun x hx => by obtain ⟨k, hk, _, _⟩ := h x hx; rw [hk]; rfl)
  have hden : ((o.map intReplaceCell).map
      (fun x => (intCellVal? x).getD (mkRat 0 1))).all isInt64 = true := by
    rw [hrep]
    apply List.all_eq_true.mpr
    intro q hq
    obtain ⟨x, hx, he⟩ := List.mem_map.mp hq
    obtain ⟨k, hk, hk1, hk2⟩ := h x hx
    rw [hk] at he
    simp only [intCellVal?, Option.getD_some] at he
    rw [← he]
    simp [isInt64, mkRat_one_den, mkRat_one_num, hk1, hk2]
  rw [coerceIntCol_out o hall hden]
  apply map_eq_self_of
  intro x hx
  obtain ⟨k, hk, _, _⟩ := h x hx
  rw [hk]
  simp [intCellOut, intCellVal?, intReplaceCell, mkRat_one_num]

theorem coerceIntCol_idem (c : Col) : coerceIntCol (coerceIntCol c) = coerceIntCol c := by
  have hrr : (c.map intReplaceCell).map intReplaceCell = c.map intReplaceCell := by
    rw [List.map_map]
    apply List.map_congr_left
    intro x _
    exact intReplaceCell_idem x
  by_cases h1 : (c.map intReplaceCell).all (fun x => (intCellVal? x).isSome) = true
  · by_cases h2 : ((c.map intReplaceCell).map
        (fun x => (intCellVal? x).getD (mkRat 0 1))).all isInt64 = true
    · rw [coerceIntCol_out c h1 h2]
      apply coerceIntCol_of_int
      intro x hx
      obtain ⟨y, hy, he⟩ := List.mem_map.mp hx
      have hvmem : (intCellVal? (intReplaceCell y)).getD (mkRat 0 1)
          ∈ (c.map intReplaceCell).map (fun x => (intCellVal? x).getD (mkRat 0 1)) :=
        List.mem_map.mpr ⟨intReplaceCell y, List.mem_map.mpr ⟨y, hy, rfl⟩, rfl⟩
      have hv := List.all_eq_true.mp h2 _ hvmem
      simp only [isInt64, Bool.and_eq_true, decide_eq_true_eq] at hv
      exact ⟨intCellOut y, he.symm, hv.1.2, hv.2⟩
    · have ho : coerceIntCol c = c.map intReplaceCell := by
        simp only [coerceIntCol, h1, if_true]
        rw [if_neg h2]
      rw [ho]
      simp only [coerceIntCol, hrr, h1, if_true]
      rw [if_neg h2]
  · have ho : coerceIntCol c = c.map intReplaceCell := by
      simp only [coerceIntCol]
      rw [if_neg h1]
    rw [ho]
    simp only [coerceIntCol, hrr]
    rw [if_neg h1]

theorem coerceFloatCol_settled (o : Col) (h : ∀ x ∈ o, floatSettled x = true) :
    coerceFloatCol o = o := by
  have hstrip : o.map stripCell = o := by
    apply map_eq_self_of
    intro x hx
    cases x with
    | str s => exact absurd (h _ hx) (by simp [floatSettled])
    | int n => rfl
    | num q => rfl
    | nullNum => rfl
    | date d => rfl
    | nullDate => rfl
  have hsome : o.all (fun x => (floatCellVal? x).isSome) = true := by
    apply List.all_eq_true.mpr
    intro x hx
    cases x with
    | date d => exact absurd (h _ hx) (by simp [floatSettled])
    | nullDate => exact absurd (h _ hx) (by simp [floatSettled])
    | str s => rfl
    | int n => rfl
    | num q => rfl
    | nullNum => rfl
  have hmap : o.map (fun x => (floatCellVal? x).getD x) = o := by
    apply map_eq_self_of
    intro x hx
    cases x with
    | str s => exact absurd (h _ hx) (by simp [floatSettled])
    | date d => rfl
    | nullDate => rfl
    | int n => rfl
    | num q => rfl
    | nullNum => rfl
  simp only [coerceFloatCol, hstrip, ite_self, hsome, if_true, hmap]

theorem coerceFloatCol_idem (c : Col) :
    coerceFloatCol (coerceFloatCol c) = coerceFloatCol c := by
  by_cases hs : c.all Cell.isStr = true
  · have hsome : (c.map stripCell).all (fun x => (floatCellVal? x).isSome) = true := by
      apply List.all_eq_true.mpr
      intro x hx
      obtain ⟨y, hy, he⟩ := List.mem_map.mp hx
      have hys : Cell.isStr y = true := List.all_eq_true.mp hs y hy
      cases y with
      | str s0 => rw [← he]; rfl
      | int n => simp [Cell.isStr] at hys
      | num q => simp [Cell.isStr] at hys
      | nullNum => simp [Cell.isStr] at hys
      | date d => simp [Cell.isStr] at hys
      | nullDate => simp [Cell.isStr] at hys
    have ho : coerceFloatCol c = (c.map stripCell).map (fun x => (floatCellVal? x).getD x) := by
      simp only [coerceFloatCol, hs, if_true, hsome]
    rw [ho]
    apply coerceFloatCol_settled
    intro x hx
    obtain ⟨y, hy, he⟩ := List.mem_map.mp hx
    obtain ⟨z, hz, he2⟩ := List.mem_map.mp hy
    have hzs : Cell.isStr z = true := List.all_eq_true.mp hs z hz
    cases z with
    | str s0 =>
      rw [← he, ← he2]
      rcases hq : to_numeric (stripDollarComma s0) with _ | q <;>
        simp [floatCellVal?, stripCell, floatSettled, hq]
    | int n => simp [Cell.isStr] at hzs
    | num q => simp [Cell.isStr] at hzs
    | nullNum => simp [Cell.isStr] at hzs
    | date d => simp [Cell.isStr] at hzs
    | nullDate => simp [Cell.isStr] at hzs
  · by_cases hv : c.all (fun x => (floatCellVal? x).isSome) = true
    · have ho : coerceFloatCol c = c.map (fun x => (floatCellVal? x).getD x) := by
        simp only [coerceFloatCol]
        rw [if_neg hs, if_pos hv]
      rw [ho]
      apply coerceFloatCol_settled
      intro x hx
      obtain ⟨y, hy, he⟩ := List.mem_map.mp hx
      have hsy : (floatCellVal? y).isSome = true := List.all_eq_true.mp hv y hy
      cases y with
      | str s0 =>
        rw [← he]
        rcases hq : to_numeric s0 with _ | q <;> simp [floatCellVal?, floatSettled, hq]
      | int n => rw [← he]; rfl
      | num q => rw [← he]; rfl
      | nullNum => rw [← he]; rfl
      | date d => simp [floatCellVal?] at hsy
      | nullDate => simp [floatCellVal?] at hsy
    · have ho : coerceFloatCol c = c := by
        simp only [coerceFloatCol]
        rw [if_neg hs, if_neg hv]
      rw [ho, ho]

theorem coerceDateCol_settled (pd_ : String → Option DateTime) (o : Col)
    (h : ∀ x ∈ o, dateSettled x = true) : coerceDateCol pd_ o = o := by
  have hsome : o.all (fun x => (dateCellVal? pd_ x).isSome) = true := by
    apply List.all_eq_true.mpr
    intro x hx
    cases x with
    | date d => rfl
    | nullDate => rfl
    | str s => exact absurd (h _ hx) (by simp [dateSettled])
    | int n => exact absurd (h _ hx) (by simp [dateSettled])
    | num q => exact absurd (h _ hx) (by simp [dateSettled])
    | nullNum => exact absurd (h _ hx) (by simp [dateSettled])
  have hmap : o.map (fun x => (dateCellVal? pd_ x).getD x) = o := by
    apply map_eq_self_of
    intro x hx
    cases x with
    | date d => rfl
    | nullDate => rfl
    | str s => exact absurd (h _ hx) (by simp [dateSettled])
    | int n => exact absurd (h _ hx) (by simp [dateSettled])
    | num q => exact absurd (h _ hx) (by simp [dateSettled])
    | nullNum => exact absurd (h _ hx) (by simp [dateSettled])
  simp only [coerceDateCol, hsome, if_true, hmap]

theorem coerceDateCol_idem (pd_ : String → Option DateTime) (c : Col) :
    coerceDateCol pd_ (coerceDateCol pd_ c) = coerceDateCol pd_ c := by
  by_cases hv : c.all (fun x => (dateCellVal? pd_ x).isSome) = true
  · have ho : coerceDateCol pd_ c = c.map (fun x => (dateCellVal? pd_ x).getD x) := by
      simp only [coerceDateCol, hv, if_true]
    rw [ho]
    apply coerceDateCol_settled
    intro x hx
    obtain ⟨y, hy, he⟩ := List.mem_map.mp hx
    have hsy : (dateCellVal? pd_ y).isSome = true := List.all_eq_true.mp hv y hy
    cases y with
    | str s0 =>
      rw [← he]
      rcases hq : pd_ s0 with _ | d <;> simp [dateCellVal?, dateSettled, hq]
    | date d => rw [← he]; rfl
    | nullDate => rw [← he]; rfl
    | int n => simp [dateCellVal?] at hsy
    | num q => simp [dateCellVal?] at hsy
    | nullNum => simp [dateCellVal?] at hsy
  · have ho : coerceDateCol pd_ c = c := by
      simp only [coerceDateCol]
      rw [if_neg hv]
    rw [ho, ho]

theorem coerceCol_idem (pd_ : String → Option DateTime) (name dtype : String) (c : Col) :
    coerceCol pd_ name dtype (coerceCol pd_ name dtype c) = coerceCol pd_ name dtype c := by
  cases h1 : intLike dtype with
  | true => simp only [coerceCol, h1, if_true]; exact coerceIntCol_idem c
  | false =>
    cases h2 : floatLike dtype with
    | true =>
      simp only [coerceCol, h1, h2, Bool.false_eq_true, if_false, if_true]
      exact coerceFloatCol_idem c
    | false =>
      cases h3 : dateLike dtype with
      | true =>
        cases h4 : strEndsWith name "_Parsed" with
        | true => simp only [coerceCol, h1, h2, h3, h4, Bool.false_eq_true, if_false, if_true]
        | false =>
          simp only [coerceCol, h1, h2, h3, h4, Bool.false_eq_true, if_false, if_true]
          exact coerceDateCol_idem pd_ c
      | false => simp only [coerceCol, h1, h2, h3, Bool.false_eq_true, if_false]

/-! ## Table extensionality -/

theorem table_ext (t1 t2 : Table) (h1 : colNames t1 = colNames t2)
    (h2 : (colNames t1).Nodup) (h3 : ∀ n, getCol t1 n = getCol t2 n) : t1 = t2 := by
  induction t1 generalizing t2 with
  | nil =>
    cases t2 with
    | nil => rfl
    | cons y r2 => exact absurd h1 (by simp [colNames])
  | cons x r1 ih =>
    cases t2 with
    | nil => exact absurd h1 (by simp [colNames])
    | cons y r2 =>
      simp only [colNames, List.map_cons, List.cons.injEq] at h1
      simp only [colNames, List.map_cons, List.nodup_cons] at h2
      have hx : getCol (x :: r1) x.1 = some x.2 := by simp [getCol_cons]
      have hy : getCol (y :: r2) x.1 = some y.2 := by
        rw [getCol_cons, if_pos h1.1.symm]
      have hxy : x.2 = y.2 := by
        have h4 := (h3 x.1).symm.trans hx
        rw [hy] at h4
        exact ((Option.some.injEq _ _).mp h4).symm
      have hpair : x = y := Prod.ext h1.1 hxy
      rw [hpair]
      have htail : r1 = r2 := by
        apply ih r2 h1.2 h2.2
        intro n
        by_cases hn : n = x.1
        · have e1 : getCol r1 n = none := by
            apply (getCol_eq_none_iff r1 n).mpr
            rw [hn]
            exact h2.1
          have e2 : getCol r2 n = none := by
            apply (getCol_eq_none_iff r2 n).mpr
            rw [hn]
            show x.1 ∉ List.map Prod.fst r2
            rw [← h1.2]
            exact h2.1
          rw [e1, e2]
        · have hny : ¬ y.1 = n := by
            intro he
            rw [← h1.1] at he
            exact hn he.symm
          have h5 := h3 n
          rw [getCol_cons, getCol_cons, if_neg (fun he => hn he.symm),
            if_neg hny] at h5
          exact h5
      rw [htail]

theorem coerceStage_eq_applySchema (pd_ : String → Option DateTime)
    (schema : List (String × String)) (t : Table) :
    coerceStage pd_ schema t =
      applySchema (fun p c => some (coerceCol pd_ p.1 p.2 c)) schema t := rfl

theorem coerceStage_idem (pd_ : String → Option DateTime)
    (schema : List (String × String)) (t : Table)
    (hnd : (schema.map Prod.fst).Nodup) (ht : (colNames t).Nodup) :
    coerceStage pd_ schema (coerceStage pd_ schema t) = coerceStage pd_ schema t := by
  rw [coerceStage_eq_applySchema, coerceStage_eq_applySchema]
  set f := fun (p : String × String) (c : Col) => some (coerceCol pd_ p.1 p.2 c) with hf
  apply table_ext
  · rw [colNames_applySchema, colNames_applySchema]
  · rw [colNames_applySchema, colNames_applySchema]
    exact ht
  · intro n
    by_cases hm : n ∈ schema.map Prod.fst
    · obtain ⟨q, hq, hqn⟩ := List.mem_map.mp hm
      subst hqn
      rw [getCol_applySchema_of_mem f schema _ q hnd hq,
        getCol_applySchema_of_mem f schema t q hnd hq]
      cases hg : getCol t q.1 with
      | none => simp
      | some c =>
        simp only [Option.map_some, hf, Option.getD_some]
        exact congrArg some (coerceCol_idem pd_ q.1 q.2 c)
    · rw [getCol_applySchema_not_mem f schema _ _ hm]

/-! ## Helper lemmas about the assembled pipeline -/

theorem normalizeText_eq_applySchema (schema : List (String × String)) (t : Table) :
    normalizeText schema t =
      applySchema (fun p c => if isTextType p.2 then some (c.map normalizeTextCell) else none)
        schema t := rfl

/-- Two schema entries with the same name are the same entry when names are
unique. -/
theorem eq_of_mem_nodup_fst {α : Type} (l : List (String × α)) (p q : String × α)
    (hnd : (l.map Prod.fst).Nodup) (hp : p ∈ l) (hq : q ∈ l) (he : p.1 = q.1) : p = q := by
  induction l with
  | nil => exact absurd hp (List.not_mem_nil p)
  | cons a t ih =>
    simp only [List.map_cons, List.nodup_cons] at hnd
    rcases List.mem_cons.mp hp with hpa | hpt
    · rcases List.mem_cons.mp hq with hqa | hqt
      · rw [hpa, hqa]
      · exfalso
        apply hnd.1
        rw [hpa] at he
        rw [he]
        exact List.mem_map.mpr ⟨q, hqt, rfl⟩
    · rcases List.mem_cons.mp hq with hqa | hqt
      · exfalso
        apply hnd.1
        rw [hqa] at he
        rw [← he]
        exact List.mem_map.mpr ⟨p, hpt, rfl⟩
      · exact ih hnd.2 hpt hqt

theorem mem_colNames_reconcile_schema (schema : List (String × String))
    (raw : List (String × List String)) (col : String)
    (h : col ∈ colNames (reconcile schema raw)) : col ∈ schema.map Prod.fst := by
  simp only [reconcile, colNames, List.map_map, List.mem_map] at h
  obtain ⟨p, hp, he⟩ := h
  have := (List.mem_filter.mp hp).2
  simp only [Function.comp_apply] at he
  rw [← he]
  simpa using this

theorem mem_colNames_reconcile_raw (schema : List (String × String))
    (raw : List (String × List String)) (col : String)
    (h : col ∈ colNames (reconcile schema raw)) : col ∈ raw.map Prod.fst := by
  simp only [reconcile, colNames, List.map_map, List.mem_map] at h
  obtain ⟨p, hp, he⟩ := h
  simp only [Function.comp_apply] at he
  exact List.mem_map.mpr ⟨p, (List.mem_filter.mp hp).1, he⟩

/-- The coercion dispatch leaves a column untouched when its declared type is
neither integer- nor float-like and it is either not date-like or is a
`_Parsed` column. -/
theorem coerceCol_skip (pd_ : String → Option DateTime) (name dtype : String) (c : Col)
    (hint : intLike dtype = false) (hfloat : floatLike dtype = false)
    (hsuf : dateLike dtype = false ∨ strEndsWith name "_Parsed" = true) :
    coerceCol pd_ name dtype c = c := by
  cases hd : dateLike dtype with
  | false => simp [coerceCol, hint, hfloat, hd]
  | true =>
    have hs : strEndsWith name "_Parsed" = true := by
      rcases hsuf with h | h
      · rw [hd] at h
        exact Bool.noConfusion h
      · exact h
    simp [coerceCol, hint, hfloat, hd, hs]

/-- The value a derived `_Parsed` column holds in the final output: the
derivation assigns it after text normalization, and the coercion stage skips
it (its declared type is not numeric, and date-typed `_Parsed` columns are
excluded from `pd.to_datetime` re-coercion by name). -/
theorem getCol_processTable_parsed (pd_ : String → Option DateTime)
    (schema : List (String × String)) (raw : List (String × List String))
    (q : String × String) (vals : List String)
    (hnd : (schema.map Prod.fst).Nodup) (hm : q ∈ schema)
    (hsuf : strEndsWith q.1 "_Parsed" = true)
    (hsrc : rawCol raw (parsedBase q.1) = some vals)
    (hint : intLike q.2 = false) (hfloat : floatLike q.2 = false) :
    getCol (processTable pd_ schema raw) q.1 = some (vals.map (deriveCell pd_)) := by
  unfold processTable
  rw [coerceStage_eq_applySchema, getCol_applySchema_of_mem _ schema _ q hnd hm,
    getCol_deriveParsed_of_mem pd_ schema raw _ q hnd hm, if_pos hsuf, hsrc]
  simp only [Option.map_some', Option.getD_some]
  exact congrArg some (coerceCol_skip pd_ q.1 q.2 _ hint hfloat (Or.inr hsuf))

/-! ## The claims -/

/-- C8: when the requested table has no columns in the destination namespace,
`get_table_schema` returns the distinct "not found" outcome (the empty
mapping), logs the condition, and the pipeline halts before reading the
source file, with no upload attempt and nothing committed. -/
theorem c8_schema_not_found_halts (pd_ : String → Option DateTime) (env : RunEnv)
    (fp tbl : String) (hcr : env.credsPresent = true) (hco : env.connectOk = true)
    (hsq : env.schemaQuery = some []) :
    (get_table_schema env.schemaQuery tbl env.dbSchemaName).1 = some [] ∧
    LogEntry.warnTableNotFound env.dbSchemaName tbl
      ∈ (get_table_schema env.schemaQuery tbl env.dbSchemaName).2 ∧
    (upload_data pd_ env fp tbl).fileRead = false ∧
    (upload_data pd_ env fp tbl).uploadAttempts = 0 ∧
    (upload_data pd_ env fp tbl).committed = none ∧
    LogEntry.errorHaltNoSchema env.dbSchemaName tbl ∈ (upload_data pd_ env fp tbl).logs ∧
    LogEntry.warnTableNotFound env.dbSchemaName tbl ∈ (upload_data pd_ env fp tbl).logs := by
  simp [get_table_schema, upload_data, upload_data_try, get_db_engine, hcr, hco, hsq]

/-- Witness for C8 at a concrete environment. -/
theorem c8_schema_not_found_halts_witness :
    (get_table_schema (some ([] : List (String × String))) "T" "tcn").1 = some [] ∧
    LogEntry.warnTableNotFound "tcn" "T"
      ∈ (get_table_schema (some ([] : List (String × String))) "T" "tcn").2 ∧
    (upload_data pdNone { envW with schemaQuery := some [] } "f.csv" "T").fileRead = false ∧
    (upload_data pdNone { envW with schemaQuery := some [] } "f.csv" "T").uploadAttempts = 0 ∧
    (upload_data pdNone { envW with schemaQuery := some [] } "f.csv" "T").committed = none ∧
    LogEntry.errorHaltNoSchema "tcn" "T"
      ∈ (upload_data pdNone { envW with schemaQuery := some [] } "f.csv" "T").logs ∧
    LogEntry.warnTableNotFound "tcn" "T"
      ∈ (upload_data pdNone { envW with schemaQuery := some [] } "f.csv" "T").logs :=
  c8_schema_not_found_halts pdNone { envW with schemaQuery := some [] } "f.csv" "T"
    (by decide) (by decide) (by decide)

/-- C7, counterexample: the claim says connectivity errors propagate uncaught
past the top-level entry point.  On a run whose connection test fails, the
`SQLAlchemyError` re-raised by `get_db_engine` is caught by `upload_data`'s
final `except Exception` handler: the run returns normally (`uncaught = none`)
after logging, so the claim is false. -/
theorem c7_counterexample :
    (upload_data pdNone { envW with connectOk := false } "data.csv" "T").uncaught = none ∧
    LogEntry.errorConnFailed
      ∈ (upload_data pdNone { envW with connectOk := false } "data.csv" "T").logs ∧
    LogEntry.errorUnexpected
      ∈ (upload_data pdNone { envW with connectOk := false } "data.csv" "T").logs := by
  decide

/-- C7, amended: no error class escapes `upload_data` — connectivity and
missing-file errors included.  `except FileNotFoundError` and the catch-all
`except Exception` log the failure and return normally, so `uncaught` is
always `none`. -/
theorem c7_amended (pd_ : String → Option DateTime) (env : RunEnv) (fp tbl : String) :
    (upload_data pd_ env fp tbl).uncaught = none ∧
    (env.credsPresent = true → env.connectOk = false →
      LogEntry.errorConnFailed ∈ (upload_data pd_ env fp tbl).logs ∧
      LogEntry.errorUnexpected ∈ (upload_data pd_ env fp tbl).logs) ∧
    (∀ schema, env.credsPresent = true → env.connectOk = true →
      env.schemaQuery = some schema → schema.isEmpty = false → env.csvFile = none →
      LogEntry.errorFileNotFound fp ∈ (upload_data pd_ env fp tbl).logs) := by
  refine ⟨?_, ?_, ?_⟩
  · rcases h : upload_data_try pd_ env fp tbl with ⟨e, lgs, fr⟩ | ⟨lgs, comm, att, fr⟩
    · cases e <;> simp [upload_data, h]
    · simp [upload_data, h]
  · intro hcr hco
    simp [upload_data, upload_data_try, get_db_engine, hcr, hco]
  · intro schema hcr hco hsq hie hcsv
    simp [upload_data, upload_data_try, get_db_engine, get_table_schema, hcr, hco, hsq,
      hie, hcsv]

/-- Witness for C7's amended claim at a concrete failing-connection run. -/
theorem c7_amended_witness :
    (upload_data pdNone { envW with connectOk := false } "f.csv" "T").uncaught = none ∧
    ((envW.credsPresent : Bool) = true → ({ envW with connectOk := false } : RunEnv).connectOk = false →
      LogEntry.errorConnFailed
        ∈ (upload_data pdNone { envW with connectOk := false } "f.csv" "T").logs ∧
      LogEntry.errorUnexpected
        ∈ (upload_data pdNone { envW with connectOk := false } "f.csv" "T").logs) := by
  have h := c7_amended pdNone { envW with connectOk := false } "f.csv" "T"
  exact ⟨h.1, fun _ _ => h.2.1 (by decide) (by decide)⟩

/-- C6: the destination write is transactional and attempted at most once:
the committed rows are either the whole coerced table or nothing, a failed
upload leaves nothing committed, and the failure path logs the error and the
rollback note without retrying. -/
theorem c6_upload_transactional (pd_ : String → Option DateTime) (env : RunEnv)
    (fp tbl : String) :
    (upload_data pd_ env fp tbl).uploadAttempts ≤ 1 ∧
    ((upload_data pd_ env fp tbl).committed = none ∨
      ∃ schema raw, env.schemaQuery = some schema ∧ env.csvFile = some raw ∧
        (upload_data pd_ env fp tbl).committed = some (processTable pd_ schema raw)) ∧
    (env.uploadOk = false → (upload_data pd_ env fp tbl).committed = none) ∧
    (env.uploadOk = false → (upload_data pd_ env fp tbl).uploadAttempts = 1 →
      LogEntry.errorUpload ∈ (upload_data pd_ env fp tbl).logs ∧
      LogEntry.errorRollbackNote ∈ (upload_data pd_ env fp tbl).logs) := by
  cases hcr : env.credsPresent with
  | false =>
    simp [upload_data, upload_data_try, get_db_engine, hcr]
  | true =>
    cases hco : env.connectOk with
    | false => simp [upload_data, upload_data_try, get_db_engine, hcr, hco]
    | true =>
      rcases hsq : env.schemaQuery with _ | schema
      · simp [upload_data, upload_data_try, get_db_engine, get_table_schema, hcr, hco, hsq]
      · cases hie : schema.isEmpty with
        | true =>
          simp [upload_data, upload_data_try, get_db_engine, get_table_schema, hcr, hco,
            hsq, hie]
        | false =>
          rcases hcsv : env.csvFile with _ | raw
          · simp [upload_data, upload_data_try, get_db_engine, get_table_schema, hcr, hco,
              hsq, hie, hcsv]
          · cases hup : env.uploadOk with
            | false =>
              simp [upload_data, upload_data_try, get_db_engine, get_table_schema, hcr,
                hco, hsq, hie, hcsv, hup]
            | true =>
              refine ⟨?_, Or.inr ⟨schema, raw, rfl, rfl, ?_⟩, ?_, ?_⟩ <;>
                simp [upload_data, upload_data_try, get_db_engine, get_table_schema, hcr,
                  hco, hsq, hie, hcsv, hup, processTable]

/-- Witness for C6 at a concrete run whose upload fails. -/
theorem c6_upload_transactional_witness :
    (upload_data pdNone { envW with uploadOk := false } "f.csv" "T").uploadAttempts ≤ 1 ∧
    (upload_data pdNone { envW with uploadOk := false } "f.csv" "T").committed = none ∧
    LogEntry.errorUpload
      ∈ (upload_data pdNone { envW with uploadOk := false } "f.csv" "T").logs ∧
    LogEntry.errorRollbackNote
      ∈ (upload_data pdNone { envW with uploadOk := false } "f.csv" "T").logs := by
  have h := c6_upload_transactional pdNone { envW with uploadOk := false } "f.csv" "T"
  have hfail := h.2.2.2 (by decide) (by decide)
  exact ⟨h.1, h.2.2.1 (by decide), hfail.1, hfail.2⟩

/-- C4: a source column absent (exact, case-sensitive match) from the
destination schema is recorded as discarded, named in the single
warning-level discard log entry, never appears in the coerced output, and the
run still proceeds to the upload (discarding is not an error). -/
theorem c4_discarded_columns (pd_ : String → Option DateTime) (env : RunEnv)
    (fp tbl : String) (schema : List (String × String))
    (raw : List (String × List String)) (col : String)
    (hcr : env.credsPresent = true) (hco : env.connectOk = true)
    (hsq : env.schemaQuery = some schema) (hie : schema.isEmpty = false)
    (hcsv : env.csvFile = some raw)
    (hin : col ∈ raw.map Prod.fst) (hout : col ∉ schema.map Prod.fst) :
    col ∈ discardedCols schema raw ∧
    LogEntry.warnDiscard env.dbSchemaName tbl (discardedCols schema raw)
      ∈ (upload_data pd_ env fp tbl).logs ∧
    (LogEntry.warnDiscard env.dbSchemaName tbl (discardedCols schema raw)).level
      = LogLevel.warning ∧
    col ∉ colNames (processTable pd_ schema raw) ∧
    (upload_data pd_ env fp tbl).uploadAttempts = 1 := by
  have hdisc : col ∈ discardedCols schema raw := by
    apply List.mem_filter.mpr
    refine ⟨hin, ?_⟩
    simpa using hout
  have hda : discardedCols schema raw ≠ [] := List.ne_nil_of_mem hdisc
  have hdl : discardLogs env.dbSchemaName tbl (discardedCols schema raw)
      = [LogEntry.warnDiscard env.dbSchemaName tbl (discardedCols schema raw)] := by
    simp [discardLogs, List.isEmpty_iff, hda]
  have hnames : col ∉ colNames (processTable pd_ schema raw) := by
    intro hmem
    unfold processTable at hmem
    rw [coerceStage_eq_applySchema, colNames_applySchema] at hmem
    rcases mem_colNames_deriveParsed pd_ schema raw _ col hmem with h2 | h2
    · rw [normalizeText_eq_applySchema, colNames_applySchema] at h2
      exact hout (mem_colNames_reconcile_schema schema raw col h2)
    · obtain ⟨q, hq, hq1, _⟩ := h2
      exact hout (hq1 ▸ List.mem_map.mpr ⟨q, hq, rfl⟩)
  refine ⟨hdisc, ?_, rfl, hnames, ?_⟩ <;>
    cases hup : env.uploadOk <;>
      simp [upload_data, upload_data_try, get_db_engine, get_table_schema, hcr, hco, hsq,
        hie, hcsv, hup, hdl]

/-- Witness for C4: the CSV column `Extra` is absent from the schema. -/
theorem c4_discarded_columns_witness :
    "Extra" ∈ discardedCols [("ID", "int")] [("ID", ["7"]), ("Extra", ["x"])] ∧
    LogEntry.warnDiscard "tcn" "T"
        (discardedCols [("ID", "int")] [("ID", ["7"]), ("Extra", ["x"])])
      ∈ (upload_data pdNone
          { envW with csvFile := some [("ID", ["7"]), ("Extra", ["x"])] } "f.csv" "T").logs ∧
    (LogEntry.warnDiscard "tcn" "T"
        (discardedCols [("ID", "int")] [("ID", ["7"]), ("Extra", ["x"])])).level
      = LogLevel.warning ∧
    "Extra" ∉ colNames (processTable pdNone [("ID", "int")]
        [("ID", ["7"]), ("Extra", ["x"])]) ∧
    (upload_data pdNone
        { envW with csvFile := some [("ID", ["7"]), ("Extra", ["x"])] } "f.csv" "T").uploadAttempts
      = 1 :=
  c4_discarded_columns pdNone
    { envW with csvFile := some [("ID", ["7"]), ("Extra", ["x"])] } "f.csv" "T"
    [("ID", "int")] [("ID", ["7"]), ("Extra", ["x"])] "Extra"
    (by decide) (by decide) (by decide) (by decide) (by decide) (by decide) (by decide)

/-- C1: for a destination column `X_Parsed` whose base column is present in
the source, every output value equals the permissive date-parse of that row's
raw source text with the last 4 characters removed; whenever the parse fails
— in particular on a blank original value, since the parser rejects the empty
string — the value is exactly the fixed timestamp 1900-01-01 00:00:00, and
the column never holds a null/missing marker.  (The `_Parsed` column's
declared type is assumed non-numeric, per the datetime convention the
derivation implements; a numeric declared type would re-enter the numeric
coercion branches, whose behavior on an already-datetime column is a
version-dependent library matter outside the script.) -/
theorem c1_parsed_column_values (pd_ : String → Option DateTime)
    (schema : List (String × String)) (raw : List (String × List String))
    (q : String × String) (vals : List String)
    (hnd : (schema.map Prod.fst).Nodup) (hm : q ∈ schema)
    (hsuf : strEndsWith q.1 "_Parsed" = true)
    (hsrc : rawCol raw (parsedBase q.1) = some vals)
    (hint : intLike q.2 = false) (hfloat : floatLike q.2 = false)
    (hblank : pd_ "" = none) :
    getCol (processTable pd_ schema raw) q.1 =
      some (vals.map (fun s =>
        match pd_ (String.mk (s.toList.take (s.toList.length - 4))) with
        | some d => Cell.date d
        | none => Cell.date sentinel)) ∧
    (∀ c, getCol (processTable pd_ schema raw) q.1 = some c →
      ∀ x ∈ c, ∃ d, x = Cell.date d) ∧
    (∀ s, s = "" →
      (match pd_ (String.mk (s.toList.take (s.toList.length - 4))) with
        | some d => Cell.date d
        | none => Cell.date sentinel) = Cell.date sentinel) := by
  have hmain := getCol_processTable_parsed pd_ schema raw q vals hnd hm hsuf hsrc hint hfloat
  refine ⟨hmain, ?_, ?_⟩
  · intro c hc x hx
    rw [hmain] at hc
    rw [← (Option.some.injEq _ _).mp hc] at hx
    obtain ⟨s, _, he⟩ := List.mem_map.mp hx
    rw [← he]
    unfold deriveCell
    rcases pd_ (String.mk (s.toList.take (s.toList.length - 4))) with _ | d
    · exact ⟨sentinel, rfl⟩
    · exact ⟨d, rfl⟩
  · intro s hs
    subst hs
    simp [hblank]

/-- Witness for C1: one parseable row and one blank row. -/
theorem c1_parsed_column_values_witness :
    getCol (processTable pdW [("D", "varchar"), ("D_Parsed", "datetime")]
        [("D", ["2024-01-01XYZW", ""])]) "D_Parsed" =
      some ((["2024-01-01XYZW", ""] : List String).map (fun s =>
        match pdW (String.mk (s.toList.take (s.toList.length - 4))) with
        | some d => Cell.date d
        | none => Cell.date sentinel)) ∧
    (∀ c, getCol (processTable pdW [("D", "varchar"), ("D_Parsed", "datetime")]
        [("D", ["2024-01-01XYZW", ""])]) "D_Parsed" = some c →
      ∀ x ∈ c, ∃ d, x = Cell.date d) ∧
    (∀ s, s = "" →
      (match pdW (String.mk (s.toList.take (s.toList.length - 4))) with
        | some d => Cell.date d
        | none => Cell.date sentinel) = Cell.date sentinel) :=
  c1_parsed_column_values pdW [("D", "varchar"), ("D_Parsed", "datetime")]
    [("D", ["2024-01-01XYZW", ""])] ("D_Parsed", "datetime") ["2024-01-01XYZW", ""]
    (by decide) (by decide) (by decide) (by decide) (by decide) (by decide) (by decide)

/-- C5, counterexample: the claim says a `_Parsed` derivation happens only
when the base column is in the reconciled set, and that otherwise no value
for the derived column appears in the output.  Here the base column `X` is in
the CSV but not in the schema, so the reconciled table is empty — yet the
derivation still runs (the code checks `df.columns`, the ORIGINAL CSV)
and the output does hold a value for `X_Parsed`. -/
theorem c5_counterexample :
    reconcile [("X_Parsed", "datetime")] [("X", ["2024-01-01XYZW"])] = [] ∧
    "X" ∉ colNames (reconcile [("X_Parsed", "datetime")] [("X", ["2024-01-01XYZW"])]) ∧
    getCol (processTable pdNone [("X_Parsed", "datetime")] [("X", ["2024-01-01XYZW"])])
      "X_Parsed" = some [Cell.date sentinel] := by
  decide

/-- C5, amended: the derivation of a `_Parsed` column is keyed on its base
column being present among the ORIGINAL CSV columns (not the reconciled
set): when the base is a CSV column the derived values appear in the output,
and when neither the base nor the derived name is a CSV column the
derivation is silently skipped and the output has no such column. -/
theorem c5_amended (pd_ : String → Option DateTime)
    (schema : List (String × String)) (raw : List (String × List String))
    (q : String × String)
    (hnd : (schema.map Prod.fst).Nodup) (hm : q ∈ schema)
    (hsuf : strEndsWith q.1 "_Parsed" = true)
    (hint : intLike q.2 = false) (hfloat : floatLike q.2 = false) :
    (∀ vals, rawCol raw (parsedBase q.1) = some vals →
      getCol (processTable pd_ schema raw) q.1 = some (vals.map (deriveCell pd_))) ∧
    (rawCol raw (parsedBase q.1) = none → q.1 ∉ raw.map Prod.fst →
      q.1 ∉ colNames (processTable pd_ schema raw)) := by
  constructor
  · intro vals hsrc
    exact getCol_processTable_parsed pd_ schema raw q vals hnd hm hsuf hsrc hint hfloat
  · intro hnone hnotraw hmem
    unfold processTable at hmem
    rw [coerceStage_eq_applySchema, colNames_applySchema] at hmem
    rcases mem_colNames_deriveParsed pd_ schema raw _ q.1 hmem with h2 | h2
    · rw [normalizeText_eq_applySchema, colNames_applySchema] at h2
      exact hnotraw (mem_colNames_reconcile_raw schema raw q.1 h2)
    · obtain ⟨q2, hq2, hq21, _, hq2some⟩ := h2
      have : q2 = q := eq_of_mem_nodup_fst schema q2 q hnd hq2 hm hq21
      rw [this] at hq2some
      rw [hnone] at hq2some
      exact Bool.noConfusion hq2some

/-- Witness for C5's amended claim: base `X` present in the CSV (first part),
and a second schema column `Z_Parsed` with no base column anywhere (second
part). -/
theorem c5_amended_witness :
    getCol (processTable pdNone [("X_Parsed", "datetime"), ("Z_Parsed", "datetime")]
        [("X", ["2024-01-01XYZW"])]) "X_Parsed" =
      some ((["2024-01-01XYZW"] : List String).map (deriveCell pdNone)) ∧
    "Z_Parsed" ∉ colNames (processTable pdNone
        [("X_Parsed", "datetime"), ("Z_Parsed", "datetime")] [("X", ["2024-01-01XYZW"])]) := by
  constructor
  · exact (c5_amended pdNone [("X_Parsed", "datetime"), ("Z_Parsed", "datetime")]
      [("X", ["2024-01-01XYZW"])] ("X_Parsed", "datetime")
      (by decide) (by decide) (by decide) (by decide) (by decide)).1
      ["2024-01-01XYZW"] (by decide)
  · exact (c5_amended pdNone [("X_Parsed", "datetime"), ("Z_Parsed", "datetime")]
      [("X", ["2024-01-01XYZW"])] ("Z_Parsed", "datetime")
      (by decide) (by decide) (by decide) (by decide) (by decide)).2
      (by decide) (by decide)

/-- C10: the base name of a `_Parsed` column is computed by removing EVERY
occurrence of the substring `_Parsed`, not only the trailing suffix: the
schema column `X_Parsed_Y_Parsed` is derived from the source column `X_Y`
(here holding a date the parser accepts), not from the also-present column
`X_Parsed_Y` (whose value the parser rejects and which would therefore have
produced the sentinel). -/
theorem c10_replace_all_occurrences :
    parsedBase "X_Parsed_Y_Parsed" = "X_Y" ∧
    getCol (processTable pdW [("X_Parsed_Y_Parsed", "datetime")]
        [("X_Y", ["2024-06-01ABCD"]), ("X_Parsed_Y", ["1999-09-09QQQQ"])])
      "X_Parsed_Y_Parsed" = some [Cell.date ⟨2024, 6, 1, 0, 0, 0⟩] ∧
    pdW "1999-09-09" = none ∧
    Cell.date ⟨2024, 6, 1, 0, 0, 0⟩ ≠ Cell.date sentinel := by
  decide

/-- C9: the type-coercion stage is idempotent — applying it to its own output
yields the same table.  (It is deterministic by construction: the loop is
embedded as a pure function of the schema and the table, mirroring the
source, which reads no other state.)  Column labels of the schema and of a
DataFrame are unique. -/
theorem c9_coercion_idempotent (pd_ : String → Option DateTime)
    (schema : List (String × String)) (t : Table)
    (hnd : (schema.map Prod.fst).Nodup) (ht : (colNames t).Nodup) :
    coerceStage pd_ schema (coerceStage pd_ schema t) = coerceStage pd_ schema t :=
  coerceStage_idem pd_ schema t hnd ht

/-- Witness for C9 on a table exercising the integer, money, date and text
branches, including a failing integer column. -/
theorem c9_coercion_idempotent_witness :
    coerceStage pdW [("A", "int"), ("B", "money"), ("C", "datetime"), ("D", "varchar")]
        (coerceStage pdW [("A", "int"), ("B", "money"), ("C", "datetime"), ("D", "varchar")]
          [("A", [Cell.str "3.5", Cell.str ""]), ("B", [Cell.str "$1,234.50", Cell.str "x"]),
           ("C", [Cell.str "2024-01-01", Cell.str "zz"]), ("D", [Cell.str " hi "])]) =
      coerceStage pdW [("A", "int"), ("B", "money"), ("C", "datetime"), ("D", "varchar")]
        [("A", [Cell.str "3.5", Cell.str ""]), ("B", [Cell.str "$1,234.50", Cell.str "x"]),
         ("C", [Cell.str "2024-01-01", Cell.str "zz"]), ("D", [Cell.str " hi "])] :=
  c9_coercion_idempotent pdW
    [("A", "int"), ("B", "money"), ("C", "datetime"), ("D", "varchar")]
    [("A", [Cell.str "3.5", Cell.str ""]), ("B", [Cell.str "$1,234.50", Cell.str "x"]),
     ("C", [Cell.str "2024-01-01", Cell.str "zz"]), ("D", [Cell.str " hi "])]
    (by decide) (by decide)

/-- C2, counterexample: the claim says that after coercing an integer-typed
column every output value is a valid integer and coercion never errors.  On
the value `"3.5"` — which `pd.to_numeric` parses to the non-integral 7/2 —
the `astype('Int64')` cast raises, the per-column `except` catches it, and
the column is left as raw text: the output value `Cell.str "3.5"` is not an
integer. -/
theorem c2_counterexample :
    getCol (coerceStage pdNone [("A", "int")] [("A", [Cell.str "3.5"])]) "A"
      = some [Cell.str "3.5"] ∧
    (∀ n : Int, Cell.str "3.5" ≠ Cell.int n) ∧
    to_numeric "3.5" = some (mkRat 7 2) ∧
    (mkRat 7 2).den ≠ 1 ∧
    coerceColFails pdNone "A" "int" [Cell.str "3.5"] = true := by
  refine ⟨by decide, ?_, by decide, by decide, by decide⟩
  intro n h
  exact Cell.noConfusion h

/-- C2, amended: for an integer-typed column of raw text, the coercion first
replaces the whole-cell placeholders `''`/`NULL`/`null`/`NaN`/`nan` by `'0'`;
if every remaining value then parses to an integral number representable in a
signed 64-bit integer (or fails to parse, becoming 0), the output column is
all integers and coercion does not error; but when some value parses to a
NON-integral or out-of-64-bit-range number, the `astype('Int64')` cast
raises, the per-column handler logs a warning, and the column is left as its
post-replacement text instead of integers.  The last two conjuncts exhibit
the range boundary: the largest signed 64-bit value converts, one past it
leaves the column as text. -/
theorem c2_amended (pd_ : String → Option DateTime)
    (schema : List (String × String)) (t : Table) (q : String × String) (c : Col)
    (hnd : (schema.map Prod.fst).Nodup) (hm : q ∈ schema)
    (hint : intLike q.2 = true)
    (hg : getCol t q.1 = some c) (hstr : c.all Cell.isStr = true) :
    getCol (coerceStage pd_ schema t) q.1 = some (coerceIntCol c) ∧
    (coerceColFails pd_ q.1 q.2 c = false →
      coerceIntCol c = c.map (fun x => Cell.int (intCellOut x))) ∧
    (coerceColFails pd_ q.1 q.2 c = true →
      coerceIntCol c = c.map intReplaceCell ∧
      LogEntry.warnCoerce q.1 q.2 ∈ coerceLogs pd_ schema t) ∧
    intCellOut (Cell.str "") = 0 ∧ intCellOut (Cell.str "NULL") = 0 ∧
    intCellOut (Cell.str "null") = 0 ∧ intCellOut (Cell.str "NaN") = 0 ∧
    intCellOut (Cell.str "nan") = 0 ∧
    (∀ s, to_numeric s = none → intCellOut (Cell.str s) = 0) ∧
    coerceIntCol [Cell.str "9223372036854775807"]
      = [Cell.int 9223372036854775807] ∧
    coerceIntCol [Cell.str "9223372036854775808"]
      = [Cell.str "9223372036854775808"] := by
  have hsome : (c.map intReplaceCell).all (fun x => (intCellVal? x).isSome) = true := by
    apply List.all_eq_true.mpr
    intro x hx
    obtain ⟨y, hy, he⟩ := List.mem_map.mp hx
    have hys := List.all_eq_true.mp hstr y hy
    cases y with
    | str s => rw [← he]; rfl
    | int n => simp [Cell.isStr] at hys
    | num q2 => simp [Cell.isStr] at hys
    | nullNum => simp [Cell.isStr] at hys
    | date d => simp [Cell.isStr] at hys
    | nullDate => simp [Cell.isStr] at hys
  refine ⟨?_, ?_, ?_, by decide, by decide, by decide, by decide, by decide, ?_,
    by decide, by decide⟩
  · rw [coerceStage_eq_applySchema, getCol_applySchema_of_mem _ schema t q hnd hm, hg]
    simp only [Option.map_some', Option.getD_some]
    simp [coerceCol, hint]
  · intro hfail
    simp only [coerceColFails, hint, if_true, hsome, Bool.true_and,
      Bool.not_eq_false'] at hfail
    exact coerceIntCol_out c hsome hfail
  · intro hfail
    have hden : ((c.map intReplaceCell).map
        (fun x => (intCellVal? x).getD (mkRat 0 1))).all isInt64 = false := by
      simp only [coerceColFails, hint, if_true, hsome, Bool.true_and,
        Bool.not_eq_eq_eq_not, Bool.not_true] at hfail
      exact hfail
    constructor
    · simp only [coerceIntCol, hsome, if_true, hden, Bool.false_eq_true, if_false]
    · apply List.mem_map.mpr
      refine ⟨q, ?_, rfl⟩
      apply List.mem_filter.mpr
      refine ⟨hm, ?_⟩
      simp [hg, hfail]
  · intro s hs
    by_cases ht : (s == "" || s == "NULL" || s == "null" || s == "NaN" || s == "nan") = true
    · simp only [intCellOut, intReplaceCell, ht, if_true]
      decide
    · simp only [intCellOut, intReplaceCell, ht, if_false, Bool.false_eq_true, intCellVal?,
        Option.getD_some, hs]
      decide

/-- Witness for C2's amended claim on a column with a placeholder, an
unparseable value and a plain integer (the success side of the case split),
plus the 64-bit range boundary facts. -/
theorem c2_amended_witness :
    getCol (coerceStage pdNone [("A", "int")]
        [("A", [Cell.str "", Cell.str "abc", Cell.str "42"])]) "A"
      = some (coerceIntCol [Cell.str "", Cell.str "abc", Cell.str "42"]) ∧
    (coerceColFails pdNone "A" "int" [Cell.str "", Cell.str "abc", Cell.str "42"] = false →
      coerceIntCol [Cell.str "", Cell.str "abc", Cell.str "42"]
        = ([Cell.str "", Cell.str "abc", Cell.str "42"] : Col).map
            (fun x => Cell.int (intCellOut x))) ∧
    intCellOut (Cell.str "") = 0 ∧
    (∀ s, to_numeric s = none → intCellOut (Cell.str s) = 0) ∧
    coerceIntCol [Cell.str "9223372036854775807"]
      = [Cell.int 9223372036854775807] ∧
    coerceIntCol [Cell.str "9223372036854775808"]
      = [Cell.str "9223372036854775808"] := by
  have h := c2_amended pdNone [("A", "int")]
    [("A", [Cell.str "", Cell.str "abc", Cell.str "42"])] ("A", "int")
    [Cell.str "", Cell.str "abc", Cell.str "42"]
    (by decide) (by decide) (by decide) (by decide) (by decide)
  exact ⟨h.1, h.2.1, h.2.2.2.1, h.2.2.2.2.2.2.2.2.1,
    h.2.2.2.2.2.2.2.2.2.1, h.2.2.2.2.2.2.2.2.2.2⟩

/-- C3, counterexample: the claim describes the decimal rule as stripping the
LEADING currency symbol `$` (plus commas) before parsing.  The code instead
removes every `$` wherever it occurs: on `"$$5"` a leading-only strip leaves
`"$5"`, which does not parse (so the claim's rule would yield the missing
marker), while the code's coercion yields the number 5. -/
theorem c3_counterexample :
    specStripLeadingDollarComma "$$5" = "$5" ∧
    to_numeric "$5" = none ∧
    getCol (coerceStage pdNone [("A", "money")] [("A", [Cell.str "$$5"])]) "A"
      = some [Cell.num 5] ∧
    Cell.num 5 ≠ Cell.nullNum := by
  decide

/-- C3, amended: for a float/decimal/numeric/money-typed column of raw text,
every `$` and `,` character is removed (wherever it occurs) and the rest is
parsed as a decimal; `"$1,234.50"` coerces to 1234.50 = 2469/2, and a value
unparseable after stripping becomes the missing marker — which is distinct
from every numeric cell, in particular from zero. -/
theorem c3_amended (pd_ : String → Option DateTime)
    (schema : List (String × String)) (t : Table) (q : String × String) (c : Col)
    (hnd : (schema.map Prod.fst).Nodup) (hm : q ∈ schema)
    (hint : intLike q.2 = false) (hfl : floatLike q.2 = true)
    (hg : getCol t q.1 = some c) (hstr : c.all Cell.isStr = true) :
    getCol (coerceStage pd_ schema t) q.1 =
      some (c.map (fun x =>
        match x with
        | Cell.str s =>
          (match to_numeric (stripDollarComma s) with
           | some q2 => Cell.num q2
           | none => Cell.nullNum)
        | x => x)) ∧
    to_numeric (stripDollarComma "$1,234.50") = some (mkRat 2469 2) ∧
    (∀ s, to_numeric (stripDollarComma s) = none →
      (match to_numeric (stripDollarComma s) with
        | some q2 => Cell.num q2
        | none => Cell.nullNum) = Cell.nullNum) ∧
    (∀ q2 : Rat, Cell.nullNum ≠ Cell.num q2) := by
  have hsome : (c.map stripCell).all (fun x => (floatCellVal? x).isSome) = true := by
    apply List.all_eq_true.mpr
    intro x hx
    obtain ⟨y, hy, he⟩ := List.mem_map.mp hx
    have hys := List.all_eq_true.mp hstr y hy
    cases y with
    | str s => rw [← he]; rfl
    | int n => simp [Cell.isStr] at hys
    | num q2 => simp [Cell.isStr] at hys
    | nullNum => simp [Cell.isStr] at hys
    | date d => simp [Cell.isStr] at hys
    | nullDate => simp [Cell.isStr] at hys
  refine ⟨?_, by decide, ?_, ?_⟩
  · rw [coerceStage_eq_applySchema, getCol_applySchema_of_mem _ schema t q hnd hm, hg]
    simp only [Option.map_some', Option.getD_some]
    apply congrArg some
    have hc : coerceCol pd_ q.1 q.2 c = coerceFloatCol c := by
      simp [coerceCol, hint, hfl]
    rw [hc]
    simp only [coerceFloatCol, hstr, if_true, hsome, List.map_map]
    apply List.map_congr_left
    intro x _
    cases x with
    | str s => rfl
    | int n => rfl
    | num q2 => rfl
    | nullNum => rfl
    | date d => rfl
    | nullDate => rfl
  · intro s hnone
    simp [hnone]
  · intro q2 hq2
    exact Cell.noConfusion hq2

/-- Witness for C3's amended claim on a money column with the claim's own
example value and an unparseable value. -/
theorem c3_amended_witness :
    getCol (coerceStage pdNone [("B", "money")]
        [("B", [Cell.str "$1,234.50", Cell.str "abc"])]) "B"
      = some (([Cell.str "$1,234.50", Cell.str "abc"] : Col).map (fun x =>
          match x with
          | Cell.str s =>
            (match to_numeric (stripDollarComma s) with
             | some q2 => Cell.num q2
             | none => Cell.nullNum)
          | x => x)) ∧
    to_numeric (stripDollarComma "$1,234.50") = some (mkRat 2469 2) ∧
    (∀ s, to_numeric (stripDollarComma s) = none →
      (match to_numeric (stripDollarComma s) with
        | some q2 => Cell.num q2
        | none => Cell.nullNum) = Cell.nullNum) ∧
    (∀ q2 : Rat, Cell.nullNum ≠ Cell.num q2) := by
  have h := c3_amended pdNone [("B", "money")]
    [("B", [Cell.str "$1,234.50", Cell.str "abc"])] ("B", "money")
    [Cell.str "$1,234.50", Cell.str "abc"]
    (by decide) (by decide) (by decide) (by decide) (by decide) (by decide)
  exact h

end CSVUpload
